import Mathlib

/-!
Shallow embedding of the prediction core of `app.py` (a football match
prediction web application).  The pure-data parts of the pipeline — match
filtering and team statistics — are modelled over `ℕ`/`ℤ`/`ℚ`; the Poisson
scoring model and the market probabilities are modelled over `ℝ`.

Modelling conventions, stated once:
  * Fields the external API may omit (`dict.get` returning `None` in the
    source) are `Option`s; the source's `x or 0` guard is `Option.getD 0`.
  * Python `round(x, n)` is modelled by `roundTo n` (round-half-up via
    Mathlib's `round`).  Python rounds half to even; the two differ only at
    exact ties, which never occur at the concrete values used below.
  * Float arithmetic is modelled by exact `ℚ`/`ℝ` arithmetic, as the spec's
    "within floating tolerance" language envisages.
  * HTTP fetching, name→identifier resolution and templating are
    collaborators: the embedded functions take the fetched match lists and
    resolved team identifiers directly.
-/

namespace MenuApp

/-- A match record as consumed by the core.  Mirrors the dictionary shape
read in `app.py` (`m["id"]`, `m["homeTeam"]["id"]`, `m["awayTeam"]["id"]`,
`m["score"]["fullTime"/"halfTime"]["home"/"away"]`); every field that
`dict.get` may fail to find is an `Option`. -/
structure Match where
  id : Option ℕ
  homeTeamId : Option ℕ
  awayTeamId : Option ℕ
  ftHome : Option ℕ
  ftAway : Option ℕ
  htHome : Option ℕ
  htAway : Option ℕ
deriving DecidableEq

/-- The deduplication loop at the end of `get_relevant_matches`: walk the
candidate list keeping a `seen` set of identifiers (`m.get("id")`, which is
`none` for a record lacking an id), skipping any record whose key was
already seen. -/
def dedupLoop (seen : List (Option ℕ)) : List Match → List Match
  | [] => []
  | m :: rest =>
    if m.id ∈ seen then dedupLoop seen rest
    else m :: dedupLoop (m.id :: seen) rest

/-- The candidate list built by `get_relevant_matches` before deduplication:
head-to-head matches from the home team's list (both orientations, in that
order), then the first five matches of each team's list (the fetcher sorts
each list by descending date, so these are the five most recent). -/
def relevantCandidates (homeId awayId : ℕ)
    (home_matches away_matches : List Match) : List Match :=
  (home_matches.filter fun m =>
      decide (m.homeTeamId = some homeId ∧ m.awayTeamId = some awayId))
    ++ (home_matches.filter fun m =>
      decide (m.homeTeamId = some awayId ∧ m.awayTeamId = some homeId))
    ++ home_matches.take 5 ++ away_matches.take 5

/-- Embedding of `get_relevant_matches` (lines 122–137 of `app.py`), with
the two fetched lists passed in place of the HTTP calls. -/
def get_relevant_matches (homeId awayId : ℕ)
    (home_matches away_matches : List Match) : List Match :=
  dedupLoop [] (relevantCandidates homeId awayId home_matches away_matches)

/-- Specification-side deduplication, written from the spec's words: keep
the first occurrence of each match identifier, dropping every later record
with the same key. -/
def specDedup : List Match → List Match
  | [] => []
  | m :: rest => m :: specDedup (rest.filter fun x => decide (x.id ≠ m.id))
termination_by l => l.length
decreasing_by
  simp only [List.length_cons]
  exact Nat.lt_succ_of_le (List.length_filter_le _ _)

/-- Accumulator of the statistics loop in `get_team_stats`: the six
counters initialised to zero before the `for match in matches` loop. -/
structure StatAcc where
  goals_scored : ℕ
  goals_conceded : ℕ
  half_time_wins : ℕ
  second_half_wins : ℕ
  both_teams_score : ℕ
  games : ℕ
deriving DecidableEq

def initAcc : StatAcc := ⟨0, 0, 0, 0, 0, 0⟩

/-- One iteration of the `get_team_stats` loop (lines 161–194 of `app.py`):
read the goal fields with a zero default, form the clamped second-half
goals, skip the match if the team is on neither side, and otherwise bump
the counters for whichever side the team is on. -/
def statStep (team_id : ℕ) (acc : StatAcc) (m : Match) : StatAcc :=
  let home_goals := m.ftHome.getD 0
  let away_goals := m.ftAway.getD 0
  let home_half := m.htHome.getD 0
  let away_half := m.htAway.getD 0
  let home_second : ℤ := max 0 ((home_goals : ℤ) - (home_half : ℤ))
  let away_second : ℤ := max 0 ((away_goals : ℤ) - (away_half : ℤ))
  if m.homeTeamId = some team_id ∨ m.awayTeamId = some team_id then
    if m.homeTeamId = some team_id then
      { goals_scored := acc.goals_scored + home_goals
        goals_conceded := acc.goals_conceded + away_goals
        half_time_wins := acc.half_time_wins + (if home_half > away_half then 1 else 0)
        second_half_wins := acc.second_half_wins + (if home_second > away_second then 1 else 0)
        both_teams_score := acc.both_teams_score + (if home_goals > 0 ∧ away_goals > 0 then 1 else 0)
        games := acc.games + 1 }
    else
      { goals_scored := acc.goals_scored + away_goals
        goals_conceded := acc.goals_conceded + home_goals
        half_time_wins := acc.half_time_wins + (if away_half > home_half then 1 else 0)
        second_half_wins := acc.second_half_wins + (if away_second > home_second then 1 else 0)
        both_teams_score := acc.both_teams_score + (if home_goals > 0 ∧ away_goals > 0 then 1 else 0)
        games := acc.games + 1 }
  else acc

/-- Python `round(x, n)` over an ordered field with a floor: scale by
`10 ^ n`, round to the nearest integer, scale back. -/
def roundTo {α : Type} [LinearOrderedField α] [FloorRing α] (n : ℕ) (x : α) : α :=
  ((round (x * 10 ^ n) : ℤ) : α) / 10 ^ n

/-- The team statistics value object returned by `get_team_stats`. -/
structure TeamStats where
  goals_avg_scored : ℚ
  goals_avg_conceded : ℚ
  half_time_win_rate : ℚ
  second_half_win_rate : ℚ
  both_teams_score_rate : ℚ
deriving DecidableEq

def zeroStats : TeamStats := ⟨0, 0, 0, 0, 0⟩

/-- The divisor used by `get_team_stats`: the number of matches the team
appeared in, replaced by 1 when that count is zero (`if games == 0:
games = 1`). -/
def statDivisor (matchList : List Match) (team_id : ℕ) : ℕ :=
  let acc := matchList.foldl (statStep team_id) initAcc
  if acc.games = 0 then 1 else acc.games

/-- Embedding of `get_team_stats` (lines 144–205 of `app.py`): early
all-zero return on an empty list, otherwise run the counting loop, guard
the divisor, divide and round each field to 3 decimals. -/
def get_team_stats (matchList : List Match) (team_id : ℕ) : TeamStats :=
  if matchList = [] then zeroStats
  else
    let acc := matchList.foldl (statStep team_id) initAcc
    let games : ℚ := (statDivisor matchList team_id : ℚ)
    { goals_avg_scored := roundTo 3 ((acc.goals_scored : ℚ) / games)
      goals_avg_conceded := roundTo 3 ((acc.goals_conceded : ℚ) / games)
      half_time_win_rate := roundTo 3 ((acc.half_time_wins : ℚ) / games)
      second_half_win_rate := roundTo 3 ((acc.second_half_wins : ℚ) / games)
      both_teams_score_rate := roundTo 3 ((acc.both_teams_score : ℚ) / games) }

/-- Embedding of `estimate_goal_intensities` (lines 210–221): home
advantage of 0.15 on the home side, then clamp both intensities with
`max(0.1, min(3.5, ·))`. -/
def estimate_goal_intensities (homeId awayId : ℕ) (matchList : List Match) : ℚ × ℚ :=
  let home_stats := get_team_stats matchList homeId
  let away_stats := get_team_stats matchList awayId
  (max 0.1 (min 3.5 (home_stats.goals_avg_scored + 0.15)),
   max 0.1 (min 3.5 away_stats.goals_avg_scored))

/-- Specification-side clamp, written from the spec's words: values below
the lower bound go to the lower bound, values above the upper bound to the
upper bound, everything else is unchanged. -/
def specClamp {α : Type} [LinearOrder α] (lo hi x : α) : α :=
  if x < lo then lo else if hi < x then hi else x

/-- Embedding of `poisson_pmf` (lines 224–228).  The source's
`except OverflowError: return 0.0` guard has no counterpart in exact real
arithmetic; for the `k ≤ 8`, `λ ≤ 3.5` range used by the pipeline the
Python code never overflows either. -/
noncomputable def poisson_pmf (k : ℕ) (lmbda : ℝ) : ℝ :=
  Real.exp (-lmbda) * lmbda ^ k / (Nat.factorial k : ℝ)

/-- Embedding of `score_matrix` (lines 231–240): the (max_goals+1)² table
of products of the two Poisson pmfs, built row by row. -/
noncomputable def score_matrix (lambda_home lambda_away : ℝ) (max_goals : ℕ := 8) :
    List (List ℝ) :=
  (List.range (max_goals + 1)).map fun i =>
    (List.range (max_goals + 1)).map fun j =>
      poisson_pmf i lambda_home * poisson_pmf j lambda_away

/-- Sum of the entries of one row whose (enumerated) column index satisfies
`sel`, starting the enumeration at `j` — the inner
`for j, p in enumerate(row)` accumulation of `probs_from_matrix`. -/
noncomputable def rowSumFrom (sel : ℕ → Bool) : ℕ → List ℝ → ℝ
  | _, [] => 0
  | j, p :: ps => (if sel j then p else 0) + rowSumFrom sel (j + 1) ps

/-- Sum of the matrix cells whose (row, column) enumeration indices satisfy
`sel`, starting the row enumeration at `i` — the outer
`for i, row in enumerate(matrix)` accumulation of `probs_from_matrix`. -/
noncomputable def cellSumFrom (sel : ℕ → ℕ → Bool) : ℕ → List (List ℝ) → ℝ
  | _, [] => 0
  | i, row :: rest => rowSumFrom (sel i) 0 row + cellSumFrom sel (i + 1) rest

noncomputable def p_home (M : List (List ℝ)) : ℝ :=
  cellSumFrom (fun i j => decide (i > j)) 0 M

noncomputable def p_draw (M : List (List ℝ)) : ℝ :=
  cellSumFrom (fun i j => decide (i = j)) 0 M

noncomputable def p_away (M : List (List ℝ)) : ℝ :=
  cellSumFrom (fun i j => decide (i < j)) 0 M

noncomputable def p_over25 (M : List (List ℝ)) : ℝ :=
  cellSumFrom (fun i j => decide (i + j > 2)) 0 M

noncomputable def p_bts (M : List (List ℝ)) : ℝ :=
  cellSumFrom (fun i j => decide (i > 0 ∧ j > 0)) 0 M

/-- Total mass of the matrix: the sum of all cells. -/
noncomputable def matrixSum (M : List (List ℝ)) : ℝ := (M.map List.sum).sum

/-- The probability dictionary returned by `probs_from_matrix`
(keys "1", "X", "2", "OVER_2_5", "BTS"). -/
structure MarketProbs where
  pOne : ℝ
  pX : ℝ
  pTwo : ℝ
  pOver25 : ℝ
  pBts : ℝ

/-- Embedding of `probs_from_matrix` (lines 243–273): accumulate the five
cell sums, normalize the 1X2 triple by its own total (the source's
`total` variable, written inline here) when that total is positive, round
everything to 4 decimals. -/
noncomputable def probs_from_matrix (M : List (List ℝ)) : MarketProbs :=
  if 0 < p_home M + p_draw M + p_away M then
    { pOne := roundTo 4 (p_home M / (p_home M + p_draw M + p_away M))
      pX := roundTo 4 (p_draw M / (p_home M + p_draw M + p_away M))
      pTwo := roundTo 4 (p_away M / (p_home M + p_draw M + p_away M))
      pOver25 := roundTo 4 (p_over25 M)
      pBts := roundTo 4 (p_bts M) }
  else
    { pOne := roundTo 4 (p_home M)
      pX := roundTo 4 (p_draw M)
      pTwo := roundTo 4 (p_away M)
      pOver25 := roundTo 4 (p_over25 M)
      pBts := roundTo 4 (p_bts M) }

/-- Inner loop of `most_likely_exact_score` on one row: the running state
is `(best_i, best_j, best_p)` and a cell replaces it exactly when its value
is strictly greater than `best_p`. -/
noncomputable def bestInRowFrom (i : ℕ) : ℕ × ℕ × ℝ → ℕ → List ℝ → ℕ × ℕ × ℝ
  | st, _, [] => st
  | st, j, p :: ps => bestInRowFrom i (if p > st.2.2 then (i, j, p) else st) (j + 1) ps

/-- Outer loop of `most_likely_exact_score` over the rows. -/
noncomputable def bestCellFrom : ℕ × ℕ × ℝ → ℕ → List (List ℝ) → ℕ × ℕ × ℝ
  | st, _, [] => st
  | st, i, row :: rest => bestCellFrom (bestInRowFrom i st 0 row) (i + 1) rest

/-- Embedding of `most_likely_exact_score` (lines 276–286): row-major scan
starting from `best_p = -1.0`, formatted as the string `"i-j"`. -/
noncomputable def most_likely_exact_score (M : List (List ℝ)) : String :=
  let r := bestCellFrom (0, 0, -1) 0 M
  toString r.1 ++ "-" ++ toString r.2.1

/-- The generator expression `sum(i * sum(row) for i, row in
enumerate(matrix))` of the `goals` field, with the enumeration started at
`i`. -/
noncomputable def rowIdxSumFrom : ℕ → List (List ℝ) → ℝ
  | _, [] => 0
  | i, row :: rest => (i : ℝ) * row.sum + rowIdxSumFrom (i + 1) rest

/-- The `goals` field of `predict_markets` (line 300):
`round(sum(i * sum(row) for i, row in enumerate(matrix)), 2)`. -/
noncomputable def goalsField (M : List (List ℝ)) : ℝ :=
  roundTo 2 (rowIdxSumFrom 0 M)

/-- Sum of column `j` of the matrix (missing entries of short rows read as
0); used only on the specification side of the expected-goals claim. -/
noncomputable def colSum (M : List (List ℝ)) (j : ℕ) : ℝ :=
  (M.map fun row => (row[j]?).getD 0).sum

/-- Modelled from the spec: "Expected total goals: Σ over i of
(i × row-sum(i)) + equivalent for away term", the matrix-implied expected
combined goals over a width-`w` matrix. -/
noncomputable def specCombinedGoals (M : List (List ℝ)) (w : ℕ) : ℝ :=
  rowIdxSumFrom 0 M + ∑ j ∈ Finset.range w, (j : ℝ) * colSum M j

/-- Python's `max(pairs, key=lambda x: x[1])`: fold keeping the first
maximal element (a later element replaces the champion only when strictly
greater). -/
noncomputable def pyMaxBy (l : List (String × ℝ)) (d : String × ℝ) : String × ℝ :=
  match l with
  | [] => d
  | x :: xs => xs.foldl (fun b y => if y.2 > b.2 then y else b) x

/-- The dictionary returned by `predict_markets`. -/
structure MarketPrediction where
  result : String
  double_chance : String
  goals : ℝ
  exact_score : String
  half_winner : String
  over_under : String
  both_teams_score : String
  probabilities : MarketProbs

/-- Embedding of `predict_markets` (lines 289–306). -/
noncomputable def predict_markets (homeId awayId : ℕ) (matchList : List Match) :
    MarketPrediction :=
  let lm := estimate_goal_intensities homeId awayId matchList
  let matrix := score_matrix (lm.1 : ℝ) (lm.2 : ℝ) 8
  let p := probs_from_matrix matrix
  let proba_1x := p.pOne + p.pX
  let proba_x2 := p.pX + p.pTwo
  let proba_12 := p.pOne + p.pTwo
  { result := (pyMaxBy [("1", p.pOne), ("X", p.pX), ("2", p.pTwo)] ("1", 0)).1
    double_chance :=
      (pyMaxBy [("1X", proba_1x), ("X2", proba_x2), ("12", proba_12)] ("1X", 0)).1
    goals := goalsField matrix
    exact_score := most_likely_exact_score matrix
    half_winner :=
      if p.pOne > max p.pX p.pTwo then "1"
      else if p.pTwo > max p.pOne p.pX then "2" else "X"
    over_under := if p.pOver25 ≥ 0.5 then "Plus de 2.5 buts" else "Moins de 2.5 buts"
    both_teams_score := if p.pBts ≥ 0.5 then "Oui" else "Non"
    probabilities := p }

/-- Outcome of the prediction branch of the `index` route: either the
"no data" sentinel or a populated prediction. -/
inductive PredictionResult where
  | noData : PredictionResult
  | markets : MarketPrediction → PredictionResult
deriving Inhabited

/-- The core branch of the `index` route (lines 342–348): filter the
matchList, predict when the filtered list is non-empty (`if
historical_matches:`), otherwise return the `"no_data"` sentinel. -/
noncomputable def runPrediction (homeId awayId : ℕ)
    (home_matches away_matches : List Match) : PredictionResult :=
  let historical := get_relevant_matches homeId awayId home_matches away_matches
  if historical ≠ [] then
    PredictionResult.markets (predict_markets homeId awayId historical)
  else PredictionResult.noData

/-- The team's own second-half goals in a match, from the spec's words:
full-time goals minus half-time goals, clamped at 0, on whichever side the
team occupies (home side when the team is the home team). -/
def secondHalfGoalsFor (m : Match) (team_id : ℕ) : ℤ :=
  if m.homeTeamId = some team_id then
    max 0 ((m.ftHome.getD 0 : ℤ) - (m.htHome.getD 0 : ℤ))
  else
    max 0 ((m.ftAway.getD 0 : ℤ) - (m.htAway.getD 0 : ℤ))

/-- The opponent's second-half goals in a match, mirror of
`secondHalfGoalsFor`. -/
def secondHalfGoalsAgainst (m : Match) (team_id : ℕ) : ℤ :=
  if m.homeTeamId = some team_id then
    max 0 ((m.ftAway.getD 0 : ℤ) - (m.htAway.getD 0 : ℤ))
  else
    max 0 ((m.ftHome.getD 0 : ℤ) - (m.htHome.getD 0 : ℤ))

/-- Cell `(i, j)` of a list-of-lists matrix, when both indices are in
range. -/
def cellGet (M : List (List ℝ)) (i j : ℕ) : Option ℝ :=
  M[i]?.bind fun row => row[j]?

/-!
Theorems.  Helper lemmas come first; each claim is settled by exactly one
theorem marked with its claim id.
-/

/-- Helper: the Python clamp `max(lo, min(hi, x))` agrees with the
specification's piecewise clamp whenever the bounds are ordered. -/
lemma max_min_eq_specClamp {α : Type} [LinearOrder α] (lo hi x : α) (h : lo ≤ hi) :
    max lo (min hi x) = specClamp lo hi x := by
  unfold specClamp
  split_ifs with h1 h2
  · rw [min_eq_right (le_trans h1.le h), max_eq_left h1.le]
  · rw [min_eq_left h2.le, max_eq_right h]
  · push_neg at h1 h2
    rw [min_eq_right h2, max_eq_right h1]

/-- Helper: the piecewise clamp always lands in the clamping interval. -/
lemma specClamp_mem_Icc {α : Type} [LinearOrder α] (lo hi x : α) (h : lo ≤ hi) :
    specClamp lo hi x ∈ Set.Icc lo hi := by
  unfold specClamp
  split_ifs with h1 h2
  · exact Set.mem_Icc.mpr ⟨le_refl lo, h⟩
  · exact Set.mem_Icc.mpr ⟨h, le_refl hi⟩
  · push_neg at h1 h2
    exact Set.mem_Icc.mpr ⟨h1, h2⟩

/-- C4: the goal-intensity estimator returns exactly
`clamp(home average scored + 0.15, 0.1, 3.5)` and
`clamp(away average scored, 0.1, 3.5)`, and both returned intensities lie
in `[0.1, 3.5]` for every input. -/
theorem C4_intensities_clamped (homeId awayId : ℕ) (matchList : List Match) :
    estimate_goal_intensities homeId awayId matchList =
      (specClamp 0.1 3.5 ((get_team_stats matchList homeId).goals_avg_scored + 0.15),
        specClamp 0.1 3.5 (get_team_stats matchList awayId).goals_avg_scored) ∧
    (estimate_goal_intensities homeId awayId matchList).1 ∈ Set.Icc (0.1 : ℚ) 3.5 ∧
    (estimate_goal_intensities homeId awayId matchList).2 ∈ Set.Icc (0.1 : ℚ) 3.5 := by
  have hle : (0.1 : ℚ) ≤ 3.5 := by norm_num
  have heq : estimate_goal_intensities homeId awayId matchList =
      (specClamp 0.1 3.5 ((get_team_stats matchList homeId).goals_avg_scored + 0.15),
        specClamp 0.1 3.5 (get_team_stats matchList awayId).goals_avg_scored) := by
    show (max 0.1 (min 3.5 ((get_team_stats matchList homeId).goals_avg_scored + 0.15)),
      max 0.1 (min 3.5 (get_team_stats matchList awayId).goals_avg_scored)) = _
    rw [max_min_eq_specClamp _ _ _ hle, max_min_eq_specClamp _ _ _ hle]
  refine ⟨heq, ?_, ?_⟩
  · rw [heq]
    exact specClamp_mem_Icc _ _ _ hle
  · rw [heq]
    exact specClamp_mem_Icc _ _ _ hle

/-- Helper: the statistics fold ignores every match the team plays in
neither side of. -/
lemma foldl_statStep_of_absent (team_id : ℕ) :
    ∀ (l : List Match) (acc : StatAcc),
      (∀ m ∈ l, m.homeTeamId ≠ some team_id ∧ m.awayTeamId ≠ some team_id) →
      l.foldl (statStep team_id) acc = acc := by
  intro l
  induction l with
  | nil => intro acc _; rfl
  | cons m rest ih =>
    intro acc h
    have hm := h m (List.mem_cons_self m rest)
    have hstep : statStep team_id acc m = acc := by
      unfold statStep
      simp [hm.1, hm.2]
    rw [List.foldl_cons, hstep]
    exact ih acc fun m2 hm2 => h m2 (List.mem_cons_of_mem m hm2)

/-- C5: for every match list (including `[]`) and every team that appears
in none of its matches, the aggregator returns the all-zero statistics
object, and the divisor it divides by is positive (never a division by
zero). -/
theorem C5_absent_team_all_zero (matchList : List Match) (team_id : ℕ)
    (h : ∀ m ∈ matchList, m.homeTeamId ≠ some team_id ∧ m.awayTeamId ≠ some team_id) :
    get_team_stats matchList team_id = zeroStats ∧ 0 < statDivisor matchList team_id := by
  have hfold := foldl_statStep_of_absent team_id matchList initAcc h
  have hdiv : statDivisor matchList team_id = 1 := by
    unfold statDivisor
    rw [hfold]
    rfl
  refine ⟨?_, by rw [hdiv]; norm_num⟩
  unfold get_team_stats
  split_ifs with he
  · rfl
  · simp only [hfold, hdiv]
    norm_num [initAcc, zeroStats, roundTo]

/-- Witness for C5 at a concrete one-element match list not involving the
team. -/
theorem C5_absent_team_all_zero_witness :
    get_team_stats [Match.mk none (some 1) (some 2) none none none none] 3 = zeroStats ∧
      0 < statDivisor [Match.mk none (some 1) (some 2) none none none none] 3 :=
  C5_absent_team_all_zero _ 3 (by decide)

/-- C3: for a match the team appears in, one step of the statistics loop
adds exactly 1 to the second-half-win counter when the team's clamped
second-half goals strictly exceed the opponent's, and 0 otherwise,
symmetrically in the side the team occupies. -/
theorem C3_second_half_increment (team_id : ℕ) (m : Match) (acc : StatAcc)
    (h : m.homeTeamId = some team_id ∨ m.awayTeamId = some team_id) :
    (statStep team_id acc m).second_half_wins =
      acc.second_half_wins +
        (if secondHalfGoalsFor m team_id > secondHalfGoalsAgainst m team_id then 1 else 0) := by
  by_cases hh : m.homeTeamId = some team_id
  · unfold statStep secondHalfGoalsFor secondHalfGoalsAgainst
    simp [hh]
  · have ha : m.awayTeamId = some team_id := h.resolve_left hh
    unfold statStep secondHalfGoalsFor secondHalfGoalsAgainst
    simp [hh, ha]

/-- Witness for C3: Scenario D — full-time 2-1, half-time 0-0 gives
second-half goals 2 and 1 and credits one second-half win to the home
side. -/
theorem C3_second_half_increment_witness :
    secondHalfGoalsFor (Match.mk (some 1) (some 65) (some 64) (some 2) (some 1) (some 0) (some 0)) 65 = 2 ∧
      secondHalfGoalsAgainst (Match.mk (some 1) (some 65) (some 64) (some 2) (some 1) (some 0) (some 0)) 65 = 1 ∧
      (statStep 65 initAcc (Match.mk (some 1) (some 65) (some 64) (some 2) (some 1) (some 0) (some 0))).second_half_wins = 1 := by
  refine ⟨by decide, by decide, ?_⟩
  rw [C3_second_half_increment 65
    (Match.mk (some 1) (some 65) (some 64) (some 2) (some 1) (some 0) (some 0)) initAcc
    (Or.inl rfl)]
  decide

/-- C8: the pipeline returns the distinct "no data" sentinel exactly when
the filtered match list is empty, and the sentinel is never equal to a
populated prediction. -/
theorem C8_no_data_iff_empty (homeId awayId : ℕ) (hm am : List Match) :
    (runPrediction homeId awayId hm am = PredictionResult.noData ↔
      get_relevant_matches homeId awayId hm am = []) ∧
    ∀ mk : MarketPrediction, PredictionResult.markets mk ≠ PredictionResult.noData := by
  constructor
  · show (if get_relevant_matches homeId awayId hm am ≠ [] then
        PredictionResult.markets
          (predict_markets homeId awayId (get_relevant_matches homeId awayId hm am))
      else PredictionResult.noData) = PredictionResult.noData ↔ _
    split_ifs with h
    · exact ⟨fun hcon => by simp at hcon, fun he => absurd he h⟩
    · simp only [ne_eq, not_not] at h
      exact ⟨fun _ => h, fun _ => rfl⟩
  · intro mk hcon
    simp at hcon

/-- Witness for C8 at empty fetched lists: the pipeline yields the
sentinel. -/
theorem C8_no_data_iff_empty_witness :
    runPrediction 0 1 [] [] = PredictionResult.noData :=
  (C8_no_data_iff_empty 0 1 [] []).1.mpr rfl

/-- Helper: the seen-set loop of the source equals the specification's
keep-first-occurrence deduplication, relative to a pre-filter removing the
already-seen keys. -/
lemma dedupLoop_eq_specDedup :
    ∀ (l : List Match) (seen : List (Option ℕ)),
      dedupLoop seen l = specDedup (l.filter fun m => decide (m.id ∉ seen)) := by
  intro l
  induction l with
  | nil => intro seen; simp [dedupLoop, specDedup]
  | cons m rest ih =>
    intro seen
    by_cases hm : m.id ∈ seen
    · have hd : decide (m.id ∉ seen) = false := by simp [hm]
      simp only [dedupLoop, if_pos hm, List.filter_cons, hd]
      simpa using ih seen
    · have hd : decide (m.id ∉ seen) = true := by simp [hm]
      simp only [dedupLoop, if_neg hm, List.filter_cons, hd, if_pos]
      rw [specDedup]
      congr 1
      rw [ih (m.id :: seen), List.filter_filter]
      congr 1
      apply List.filter_congr
      intro x _
      by_cases h1 : x.id = m.id <;> by_cases h2 : x.id ∈ seen <;>
        simp [h1, h2, List.mem_cons]

/-- C9: the match filter's output is exactly the first-seen deduplication
(by match identifier) of: head-to-head matches from the home team's list in
both orientations, then the home team's first five matches, then the away
team's first five matches. -/
theorem C9_filter_is_dedup_of_candidates (homeId awayId : ℕ) (hm am : List Match) :
    get_relevant_matches homeId awayId hm am =
      specDedup
        ((hm.filter fun m =>
            decide (m.homeTeamId = some homeId ∧ m.awayTeamId = some awayId))
          ++ (hm.filter fun m =>
            decide (m.homeTeamId = some awayId ∧ m.awayTeamId = some homeId))
          ++ hm.take 5 ++ am.take 5) := by
  unfold get_relevant_matches relevantCandidates
  rw [dedupLoop_eq_specDedup]
  congr 1
  exact List.filter_eq_self.mpr fun a _ => by simp

/-- Helper: identifier-less records surviving the deduplication loop are
exactly the first identifier-less record of the input (none if the `none`
key was already seen). -/
lemma filter_isNone_dedupLoop :
    ∀ (l : List Match) (seen : List (Option ℕ)),
      ((dedupLoop seen l).filter fun m => m.id.isNone) =
        if (none : Option ℕ) ∈ seen then []
        else (l.filter fun m => m.id.isNone).take 1 := by
  intro l
  induction l with
  | nil =>
    intro seen
    by_cases hn : (none : Option ℕ) ∈ seen <;> simp [dedupLoop, hn]
  | cons m rest ih =>
    intro seen
    by_cases hm : m.id ∈ seen
    · simp only [dedupLoop, if_pos hm]
      rw [ih seen]
      by_cases hn : (none : Option ℕ) ∈ seen
      · simp [hn]
      · have hmi : m.id.isNone = false := by
          cases hid : m.id
          · exact absurd (hid ▸ hm) hn
          · rfl
        simp [hn, List.filter_cons, hmi]
    · simp only [dedupLoop, if_neg hm]
      cases hid : m.id with
      | none =>
        have h1 := ih (m.id :: seen)
        rw [hid] at h1
        have hn : (none : Option ℕ) ∉ seen := hid ▸ hm
        have h2 : (none : Option ℕ) ∈ none :: seen := List.mem_cons_self _ _
        rw [List.filter_cons, List.filter_cons]
        simp only [hid, Option.isNone_none, if_pos]
        rw [h1, if_pos h2, if_neg hn]
        simp
      | some k =>
        have h1 := ih (m.id :: seen)
        rw [hid] at h1
        have hmi : m.id.isNone = false := by rw [hid]; rfl
        have h2 : ((none : Option ℕ) ∈ some k :: seen) ↔ (none : Option ℕ) ∈ seen := by
          simp [List.mem_cons]
        rw [List.filter_cons, List.filter_cons]
        simp only [hmi, Bool.false_eq_true, if_false]
        rw [h1]
        by_cases hn : (none : Option ℕ) ∈ seen
        · rw [if_pos (h2.mpr hn), if_pos hn]
        · rw [if_neg (fun hc => hn (h2.mp hc)), if_neg hn]

/-- C10: all identifier-less records share the deduplication key `none`,
so the filter's output keeps at most one of them — exactly the first
identifier-less candidate. -/
theorem C10_at_most_one_idless (homeId awayId : ℕ) (hm am : List Match) :
    ((get_relevant_matches homeId awayId hm am).filter fun m => m.id.isNone) =
      ((relevantCandidates homeId awayId hm am).filter fun m => m.id.isNone).take 1 ∧
    ((get_relevant_matches homeId awayId hm am).filter fun m => m.id.isNone).length ≤ 1 := by
  have h := filter_isNone_dedupLoop (relevantCandidates homeId awayId hm am) []
  constructor
  · unfold get_relevant_matches
    rw [h]
    simp
  · unfold get_relevant_matches
    rw [h]
    simp only [List.not_mem_nil, if_false]
    exact List.length_take_le 1 _

/-- Helper: for a fixed row index the three 1X2 column selectors partition
every row, so the three selected sums add up to the plain row sum. -/
lemma rowSumFrom_tri (i : ℕ) :
    ∀ (xs : List ℝ) (j : ℕ),
      rowSumFrom (fun j2 => decide (i > j2)) j xs +
        rowSumFrom (fun j2 => decide (i = j2)) j xs +
        rowSumFrom (fun j2 => decide (i < j2)) j xs = xs.sum := by
  intro xs
  induction xs with
  | nil => intro j; simp [rowSumFrom]
  | cons p ps ih =>
    intro j
    simp only [rowSumFrom, List.sum_cons]
    rcases lt_trichotomy i j with hc | hc | hc
    · have e1 : (decide (i > j)) = false := by simp; omega
      have e2 : (decide (i = j)) = false := by simp; omega
      have e3 : (decide (i < j)) = true := by simp [hc]
      simp only [e1, e2, e3, Bool.false_eq_true, if_false, eq_self_iff_true, if_true]
      linarith [ih (j + 1)]
    · have e1 : (decide (i > j)) = false := by simp; omega
      have e2 : (decide (i = j)) = true := by simp [hc]
      have e3 : (decide (i < j)) = false := by simp; omega
      simp only [e1, e2, e3, Bool.false_eq_true, if_false, eq_self_iff_true, if_true]
      linarith [ih (j + 1)]
    · have e1 : (decide (i > j)) = true := by simp [hc]
      have e2 : (decide (i = j)) = false := by simp; omega
      have e3 : (decide (i < j)) = false := by simp; omega
      simp only [e1, e2, e3, Bool.false_eq_true, if_false, eq_self_iff_true, if_true]
      linarith [ih (j + 1)]

/-- Helper: the home-win, draw and away-win cell sums partition the whole
matrix mass. -/
lemma cellSumFrom_tri :
    ∀ (M : List (List ℝ)) (i : ℕ),
      cellSumFrom (fun a b => decide (a > b)) i M +
        cellSumFrom (fun a b => decide (a = b)) i M +
        cellSumFrom (fun a b => decide (a < b)) i M = matrixSum M := by
  intro M
  induction M with
  | nil => intro i; simp [cellSumFrom, matrixSum]
  | cons row rest ih =>
    intro i
    simp only [cellSumFrom, matrixSum, List.map_cons, List.sum_cons]
    have h2 := ih (i + 1)
    simp only [matrixSum] at h2
    linarith [rowSumFrom_tri i row 0]

/-- Helper: the 1X2 normalization divisor is the total matrix mass. -/
lemma p_sum_eq_matrixSum (M : List (List ℝ)) :
    p_home M + p_draw M + p_away M = matrixSum M := by
  have h := cellSumFrom_tri M 0
  unfold p_home p_draw p_away
  linarith

/-- Helper: a list of nonnegative reals containing a positive element has
a positive sum. -/
lemma list_sum_pos_of_mem (l : List ℝ) (hnn : ∀ x ∈ l, 0 ≤ x) (x : ℝ)
    (hx : x ∈ l) (hxpos : 0 < x) : 0 < l.sum := by
  induction l with
  | nil => cases hx
  | cons a as ih =>
    rw [List.sum_cons]
    rcases List.mem_cons.mp hx with rfl | hx2
    · have h0 : 0 ≤ as.sum :=
        List.sum_nonneg fun y hy => hnn y (List.mem_cons_of_mem _ hy)
      linarith
    · have ha : 0 ≤ a := hnn a (List.mem_cons_self _ _)
      have := ih (fun y hy => hnn y (List.mem_cons_of_mem _ hy)) hx2
      linarith

/-- Helper: a matrix of nonnegative entries with one positive entry has
positive total mass. -/
lemma matrixSum_pos_of_cell (M : List (List ℝ))
    (hnn : ∀ row ∈ M, ∀ x ∈ row, 0 ≤ x)
    (hpos : ∃ row ∈ M, ∃ x ∈ row, 0 < x) : 0 < matrixSum M := by
  obtain ⟨row, hrow, x, hx, hxpos⟩ := hpos
  unfold matrixSum
  refine list_sum_pos_of_mem (M.map List.sum) ?_ row.sum
    (List.mem_map_of_mem List.sum hrow) ?_
  · intro s hs
    obtain ⟨r, hr, rfl⟩ := List.mem_map.mp hs
    exact List.sum_nonneg fun y hy => hnn r hr y hy
  · exact list_sum_pos_of_mem row (hnn row hrow) x hx hxpos

/-- Helper: rounding to `n` decimals moves a value by at most half a unit
in the last place. -/
lemma abs_roundTo_sub_le {α : Type} [LinearOrderedField α] [FloorRing α] (n : ℕ) (x : α) :
    |roundTo n x - x| ≤ 1 / (2 * 10 ^ n) := by
  unfold roundTo
  have h10 : (0 : α) < 10 ^ n := by positivity
  have h := abs_sub_round (x * 10 ^ n)
  have heq : ((round (x * 10 ^ n) : ℤ) : α) / 10 ^ n - x
      = -((x * 10 ^ n - ((round (x * 10 ^ n) : ℤ) : α)) / 10 ^ n) := by
    field_simp
    ring
  rw [heq, abs_neg, abs_div, abs_of_pos h10,
    div_le_div_iff h10 (by positivity : (0 : α) < 2 * 10 ^ n)]
  calc |x * 10 ^ n - ((round (x * 10 ^ n) : ℤ) : α)| * (2 * 10 ^ n)
      ≤ 1 / 2 * (2 * 10 ^ n) := mul_le_mul_of_nonneg_right h (by positivity)
    _ = 1 * 10 ^ n := by ring

/-- C2: whenever the score matrix has nonnegative entries and at least one
strictly positive cell, the normalization divisor is positive, the three
normalized 1X2 probabilities sum to exactly 1, and the three returned
(4-decimal-rounded) values sum to 1 within 3/20000. -/
theorem C2_1x2_probs_sum_to_one (M : List (List ℝ))
    (hnn : ∀ row ∈ M, ∀ x ∈ row, 0 ≤ x)
    (hpos : ∃ row ∈ M, ∃ x ∈ row, 0 < x) :
    0 < p_home M + p_draw M + p_away M ∧
    p_home M / (p_home M + p_draw M + p_away M)
      + p_draw M / (p_home M + p_draw M + p_away M)
      + p_away M / (p_home M + p_draw M + p_away M) = 1 ∧
    |(probs_from_matrix M).pOne + (probs_from_matrix M).pX + (probs_from_matrix M).pTwo - 1|
      ≤ 3 / 20000 := by
  have htpos : 0 < p_home M + p_draw M + p_away M := by
    rw [p_sum_eq_matrixSum]
    exact matrixSum_pos_of_cell M hnn hpos
  have hne : p_home M + p_draw M + p_away M ≠ 0 := ne_of_gt htpos
  have hsum1 : p_home M / (p_home M + p_draw M + p_away M)
      + p_draw M / (p_home M + p_draw M + p_away M)
      + p_away M / (p_home M + p_draw M + p_away M) = 1 := by
    rw [div_add_div_same, div_add_div_same, div_self hne]
  refine ⟨htpos, hsum1, ?_⟩
  have hrec : probs_from_matrix M =
      { pOne := roundTo 4 (p_home M / (p_home M + p_draw M + p_away M))
        pX := roundTo 4 (p_draw M / (p_home M + p_draw M + p_away M))
        pTwo := roundTo 4 (p_away M / (p_home M + p_draw M + p_away M))
        pOver25 := roundTo 4 (p_over25 M)
        pBts := roundTo 4 (p_bts M) } := by
    unfold probs_from_matrix
    rw [if_pos htpos]
  rw [hrec]
  have e1 := abs_roundTo_sub_le 4 (p_home M / (p_home M + p_draw M + p_away M))
  have e2 := abs_roundTo_sub_le 4 (p_draw M / (p_home M + p_draw M + p_away M))
  have e3 := abs_roundTo_sub_le 4 (p_away M / (p_home M + p_draw M + p_away M))
  rw [abs_le] at e1 e2 e3 ⊢
  norm_num at e1 e2 e3
  constructor <;> simp only [] <;> nlinarith [hsum1, e1.1, e1.2, e2.1, e2.2, e3.1, e3.2]

/-- Witness for C2 at the one-cell matrix `[[1]]`. -/
theorem C2_1x2_probs_sum_to_one_witness :
    0 < p_home [[(1 : ℝ)]] + p_draw [[(1 : ℝ)]] + p_away [[(1 : ℝ)]] ∧
    p_home [[(1 : ℝ)]] / (p_home [[(1 : ℝ)]] + p_draw [[(1 : ℝ)]] + p_away [[(1 : ℝ)]])
      + p_draw [[(1 : ℝ)]] / (p_home [[(1 : ℝ)]] + p_draw [[(1 : ℝ)]] + p_away [[(1 : ℝ)]])
      + p_away [[(1 : ℝ)]] / (p_home [[(1 : ℝ)]] + p_draw [[(1 : ℝ)]] + p_away [[(1 : ℝ)]]) = 1 ∧
    |(probs_from_matrix [[(1 : ℝ)]]).pOne + (probs_from_matrix [[(1 : ℝ)]]).pX
      + (probs_from_matrix [[(1 : ℝ)]]).pTwo - 1| ≤ 3 / 20000 :=
  C2_1x2_probs_sum_to_one [[(1 : ℝ)]]
    (by
      intro row hrow x hx
      simp only [List.mem_singleton] at hrow
      subst hrow
      simp only [List.mem_singleton] at hx
      subst hx
      norm_num)
    ⟨[(1 : ℝ)], by simp, 1, by simp, by norm_num⟩

/-- Helper: the Poisson pmf is positive for a positive rate. -/
lemma poisson_pmf_pos (k : ℕ) (l : ℝ) (hl : 0 < l) : 0 < poisson_pmf k l := by
  unfold poisson_pmf
  have h1 : (0 : ℝ) < (Nat.factorial k : ℝ) := by exact_mod_cast Nat.factorial_pos k
  exact div_pos (mul_pos (Real.exp_pos _) (pow_pos hl _)) h1

/-- Helper: every cell of the score matrix is positive for positive
rates. -/
lemma score_matrix_cell_pos (lh la : ℝ) (hlh : 0 < lh) (hla : 0 < la) (g : ℕ) :
    ∀ row ∈ score_matrix lh la g, ∀ x ∈ row, 0 < x := by
  intro row hrow x hx
  unfold score_matrix at hrow
  obtain ⟨i, hi, rfl⟩ := List.mem_map.mp hrow
  obtain ⟨j, hj, rfl⟩ := List.mem_map.mp hx
  exact mul_pos (poisson_pmf_pos _ _ hlh) (poisson_pmf_pos _ _ hla)

/-- C6: for rates in `[0.1, 3.5]` every cell of the score matrix is
strictly positive, hence the 1X2 normalization divisor is strictly
positive and the normalization never divides by zero. -/
theorem C6_positive_matrix_positive_divisor (lh la : ℝ)
    (h1 : 0.1 ≤ lh) (h2 : lh ≤ 3.5) (h3 : 0.1 ≤ la) (h4 : la ≤ 3.5) :
    (∀ row ∈ score_matrix lh la 8, ∀ x ∈ row, 0 < x) ∧
    0 < p_home (score_matrix lh la 8) + p_draw (score_matrix lh la 8)
        + p_away (score_matrix lh la 8) := by
  have hlh : 0 < lh := lt_of_lt_of_le (by norm_num) h1
  have hla : 0 < la := lt_of_lt_of_le (by norm_num) h3
  have hcell := score_matrix_cell_pos lh la hlh hla 8
  refine ⟨hcell, ?_⟩
  rw [p_sum_eq_matrixSum]
  apply matrixSum_pos_of_cell
  · intro row hrow x hx
    exact (hcell row hrow x hx).le
  · refine ⟨(List.range 9).map fun j => poisson_pmf 0 lh * poisson_pmf j la, ?_,
      poisson_pmf 0 lh * poisson_pmf 0 la, ?_, ?_⟩
    · unfold score_matrix
      exact List.mem_map.mpr ⟨0, by simp, rfl⟩
    · exact List.mem_map.mpr ⟨0, by simp, rfl⟩
    · exact mul_pos (poisson_pmf_pos _ _ hlh) (poisson_pmf_pos _ _ hla)

/-- Witness for C6 at `λ_home = λ_away = 1`. -/
theorem C6_positive_matrix_positive_divisor_witness :
    (∀ row ∈ score_matrix 1 1 8, ∀ x ∈ row, 0 < x) ∧
    0 < p_home (score_matrix 1 1 8) + p_draw (score_matrix 1 1 8)
        + p_away (score_matrix 1 1 8) :=
  C6_positive_matrix_positive_divisor 1 1 (by norm_num) (by norm_num) (by norm_num)
    (by norm_num)

/-- Helper: splitting the row scan of the exact-score search across an
append, with the running column index advanced accordingly. -/
lemma bestInRowFrom_append (i : ℕ) :
    ∀ (a b : List ℝ) (st : ℕ × ℕ × ℝ) (j : ℕ),
      bestInRowFrom i st j (a ++ b) =
        bestInRowFrom i (bestInRowFrom i st j a) (j + a.length) b := by
  intro a
  induction a with
  | nil => intro b st j; simp [bestInRowFrom]
  | cons p ps ih =>
    intro b st j
    simp only [List.cons_append, bestInRowFrom, List.length_cons, List.append_eq]
    rw [ih]
    congr 1
    omega

/-- Helper: a row of values not exceeding the current best leaves the scan
state unchanged (replacement requires a strict increase). -/
lemma bestInRowFrom_le (i : ℕ) :
    ∀ (xs : List ℝ) (st : ℕ × ℕ × ℝ) (j : ℕ),
      (∀ p ∈ xs, p ≤ st.2.2) → bestInRowFrom i st j xs = st := by
  intro xs
  induction xs with
  | nil => intro st j _; rfl
  | cons p ps ih =>
    intro st j h
    have hp : p ≤ st.2.2 := h p (List.mem_cons_self _ _)
    simp only [bestInRowFrom]
    rw [if_neg (not_lt.mpr hp)]
    exact ih st (j + 1) fun q hq => h q (List.mem_cons_of_mem _ hq)

/-- Helper: scanning values all below a bound keeps the best value below
that bound. -/
lemma bestInRowFrom_lt (i : ℕ) (c : ℝ) :
    ∀ (xs : List ℝ) (st : ℕ × ℕ × ℝ) (j : ℕ),
      st.2.2 < c → (∀ p ∈ xs, p < c) → (bestInRowFrom i st j xs).2.2 < c := by
  intro xs
  induction xs with
  | nil => intro st j hst _; exact hst
  | cons p ps ih =>
    intro st j hst h
    simp only [bestInRowFrom]
    by_cases hc : p > st.2.2
    · rw [if_pos hc]
      exact ih _ _ (h p (List.mem_cons_self _ _)) fun q hq => h q (List.mem_cons_of_mem _ hq)
    · rw [if_neg hc]
      exact ih st (j + 1) hst fun q hq => h q (List.mem_cons_of_mem _ hq)

/-- Helper: splitting the outer row-major scan across an append of row
blocks. -/
lemma bestCellFrom_append :
    ∀ (A B : List (List ℝ)) (st : ℕ × ℕ × ℝ) (i : ℕ),
      bestCellFrom st i (A ++ B) = bestCellFrom (bestCellFrom st i A) (i + A.length) B := by
  intro A
  induction A with
  | nil => intro B st i; simp [bestCellFrom]
  | cons row rest ih =>
    intro B st i
    simp only [List.cons_append, bestCellFrom, List.length_cons, List.append_eq]
    rw [ih]
    congr 1
    omega

/-- Helper: trailing rows of values not exceeding the current best leave
the scan state unchanged. -/
lemma bestCellFrom_le :
    ∀ (rows : List (List ℝ)) (st : ℕ × ℕ × ℝ) (i : ℕ),
      (∀ row ∈ rows, ∀ p ∈ row, p ≤ st.2.2) → bestCellFrom st i rows = st := by
  intro rows
  induction rows with
  | nil => intro st i _; rfl
  | cons row rest ih =>
    intro st i h
    simp only [bestCellFrom]
    rw [bestInRowFrom_le i row st 0 fun p hp => h row (List.mem_cons_self _ _) p hp]
    exact ih st (i + 1) fun r hr p hp => h r (List.mem_cons_of_mem _ hr) p hp

/-- Helper: scanning rows of values all below a bound keeps the best value
below that bound. -/
lemma bestCellFrom_lt (c : ℝ) :
    ∀ (rows : List (List ℝ)) (st : ℕ × ℕ × ℝ) (i : ℕ),
      st.2.2 < c → (∀ row ∈ rows, ∀ p ∈ row, p < c) →
      (bestCellFrom st i rows).2.2 < c := by
  intro rows
  induction rows with
  | nil => intro st i hst _; exact hst
  | cons row rest ih =>
    intro st i hst h
    simp only [bestCellFrom]
    exact ih _ _
      (bestInRowFrom_lt i c row st 0 hst fun p hp => h row (List.mem_cons_self _ _) p hp)
      fun r hr p hp => h r (List.mem_cons_of_mem _ hr) p hp

/-- C7: the exact-score pick is the cell before which every row-major
predecessor is strictly smaller and from which every successor is no
larger — i.e. the first occurrence of the strict maximum — formatted as
the string `"i-j"`. -/
theorem C7_exact_score_first_strict_max (M : List (List ℝ)) (i0 j0 : ℕ) (p0 : ℝ)
    (hcell : cellGet M i0 j0 = some p0)
    (hneg : -1 < p0)
    (hbefore : ∀ i j p, cellGet M i j = some p → (i < i0 ∨ (i = i0 ∧ j < j0)) → p < p0)
    (hafter : ∀ i j p, cellGet M i j = some p → (i0 < i ∨ (i = i0 ∧ j0 < j)) → p ≤ p0) :
    most_likely_exact_score M = toString i0 ++ "-" ++ toString j0 := by
  obtain ⟨row0, hrow0, hp0⟩ := Option.bind_eq_some.mp hcell
  obtain ⟨hi0, hrow0get⟩ := List.getElem?_eq_some.mp hrow0
  obtain ⟨hj0, hp0get⟩ := List.getElem?_eq_some.mp hp0
  have hMsplit : M = M.take i0 ++ row0 :: M.drop (i0 + 1) := by
    conv_lhs => rw [← List.take_append_drop i0 M]
    congr 1
    rw [List.drop_eq_getElem_cons hi0, hrow0get]
  have hrowsplit : row0 = row0.take j0 ++ p0 :: row0.drop (j0 + 1) := by
    conv_lhs => rw [← List.take_append_drop j0 row0]
    congr 1
    rw [List.drop_eq_getElem_cons hj0, hp0get]
  have hTakeRows : ∀ row ∈ M.take i0, ∀ p ∈ row, p < p0 := by
    intro row hrow p hp
    obtain ⟨k, hk⟩ := List.mem_iff_getElem?.mp hrow
    rw [List.getElem?_take] at hk
    by_cases hki : k < i0
    · rw [if_pos hki] at hk
      obtain ⟨jj, hjj⟩ := List.mem_iff_getElem?.mp hp
      exact hbefore k jj p (by unfold cellGet; rw [hk]; simpa using hjj) (Or.inl hki)
    · rw [if_neg hki] at hk
      cases hk
  have hTakeCols : ∀ p ∈ row0.take j0, p < p0 := by
    intro p hp
    obtain ⟨k, hk⟩ := List.mem_iff_getElem?.mp hp
    rw [List.getElem?_take] at hk
    by_cases hkj : k < j0
    · rw [if_pos hkj] at hk
      exact hbefore i0 k p (by unfold cellGet; rw [hrow0]; simpa using hk)
        (Or.inr ⟨rfl, hkj⟩)
    · rw [if_neg hkj] at hk
      cases hk
  have hDropCols : ∀ p ∈ row0.drop (j0 + 1), p ≤ p0 := by
    intro p hp
    obtain ⟨k, hk⟩ := List.mem_iff_getElem?.mp hp
    rw [List.getElem?_drop] at hk
    exact hafter i0 (j0 + 1 + k) p (by unfold cellGet; rw [hrow0]; simpa using hk)
      (Or.inr ⟨rfl, by omega⟩)
  have hDropRows : ∀ row ∈ M.drop (i0 + 1), ∀ p ∈ row, p ≤ p0 := by
    intro row hrow p hp
    obtain ⟨k, hk⟩ := List.mem_iff_getElem?.mp hrow
    rw [List.getElem?_drop] at hk
    obtain ⟨jj, hjj⟩ := List.mem_iff_getElem?.mp hp
    exact hafter (i0 + 1 + k) jj p (by unfold cellGet; rw [hk]; simpa using hjj)
      (Or.inl (by omega))
  have hscan : bestCellFrom (0, 0, -1) 0 M = (i0, j0, p0) := by
    conv_lhs => rw [hMsplit]
    rw [bestCellFrom_append]
    have hlen1 : (M.take i0).length = i0 := by
      rw [List.length_take]
      omega
    have hst1lt : (bestCellFrom (0, 0, -1) 0 (M.take i0)).2.2 < p0 :=
      bestCellFrom_lt p0 (M.take i0) (0, 0, -1) 0 hneg hTakeRows
    simp only [hlen1, Nat.zero_add, bestCellFrom]
    have hrow : bestInRowFrom i0 (bestCellFrom (0, 0, -1) 0 (M.take i0)) 0 row0
        = (i0, j0, p0) := by
      conv_lhs => rw [hrowsplit]
      rw [bestInRowFrom_append]
      have hlen2 : (row0.take j0).length = j0 := by
        rw [List.length_take]
        omega
      have hst2lt : (bestInRowFrom i0 (bestCellFrom (0, 0, -1) 0 (M.take i0)) 0
          (row0.take j0)).2.2 < p0 :=
        bestInRowFrom_lt i0 p0 (row0.take j0) _ 0 hst1lt hTakeCols
      simp only [hlen2, Nat.zero_add, bestInRowFrom]
      rw [if_pos hst2lt]
      exact bestInRowFrom_le i0 (row0.drop (j0 + 1)) (i0, j0, p0) (j0 + 1) hDropCols
    rw [hrow]
    exact bestCellFrom_le (M.drop (i0 + 1)) (i0, j0, p0) (i0 + 1) hDropRows
  show toString (bestCellFrom (0, 0, -1) 0 M).1 ++ "-"
      ++ toString (bestCellFrom (0, 0, -1) 0 M).2.1 = _
  rw [hscan]

/-- Helper: the Poisson pmf for a rate in `(0, 1]` is maximal at zero
goals. -/
lemma poisson_pmf_le_max (k : ℕ) (l : ℝ) (h0 : 0 < l) (h1 : l ≤ 1) :
    poisson_pmf k l ≤ poisson_pmf 0 l := by
  unfold poisson_pmf
  have hfk : (1 : ℝ) ≤ (Nat.factorial k : ℝ) := by exact_mod_cast Nat.factorial_pos k
  have hpow : l ^ k ≤ 1 := pow_le_one₀ h0.le h1
  have hexp := (Real.exp_pos (-l)).le
  simp only [pow_zero, Nat.factorial_zero, Nat.cast_one, mul_one, div_one]
  calc Real.exp (-l) * l ^ k / (Nat.factorial k : ℝ)
      ≤ Real.exp (-l) * 1 / 1 := by
        apply div_le_div (by positivity) ?_ (by norm_num) hfk
        exact mul_le_mul_of_nonneg_left hpow hexp
    _ = Real.exp (-l) := by ring

/-- Helper: characterize a retrieved cell of the score matrix. -/
lemma cellGet_score_matrix (lh la : ℝ) (g i j : ℕ) (p : ℝ)
    (h : cellGet (score_matrix lh la g) i j = some p) :
    i ≤ g ∧ j ≤ g ∧ p = poisson_pmf i lh * poisson_pmf j la := by
  unfold cellGet score_matrix at h
  obtain ⟨row, hrow, hcol⟩ := Option.bind_eq_some.mp h
  rw [List.getElem?_map] at hrow
  obtain ⟨ii, hii, hiirow⟩ := Option.map_eq_some'.mp hrow
  obtain ⟨hi, hival⟩ := List.getElem?_eq_some.mp hii
  rw [List.getElem_range] at hival
  subst hival
  subst hiirow
  rw [List.getElem?_map] at hcol
  obtain ⟨jj, hjj, hjjp⟩ := Option.map_eq_some'.mp hcol
  obtain ⟨hj, hjval⟩ := List.getElem?_eq_some.mp hjj
  rw [List.getElem_range] at hjval
  subst hjval
  subst hjjp
  rw [List.length_range] at hi hj
  exact ⟨by omega, by omega, rfl⟩

/-- Witness for C7: Scenario E — at `λ_home = λ_away = 0.1` the cell (0,0)
dominates and the pick is the string `"0-0"`. -/
theorem C7_exact_score_first_strict_max_witness :
    most_likely_exact_score (score_matrix 0.1 0.1 8) = "0-0" := by
  have h := C7_exact_score_first_strict_max (score_matrix 0.1 0.1 8) 0 0
      (poisson_pmf 0 0.1 * poisson_pmf 0 0.1)
      (by rfl)
      (by
        have h1 := poisson_pmf_pos 0 0.1 (by norm_num)
        nlinarith)
      (by
        intro i j p _ hij
        rcases hij with hlt | ⟨_, hlt⟩ <;> omega)
      (by
        intro i j p hc hij
        obtain ⟨hi, hj, rfl⟩ := cellGet_score_matrix 0.1 0.1 8 i j p hc
        exact mul_le_mul (poisson_pmf_le_max i 0.1 (by norm_num) (by norm_num))
          (poisson_pmf_le_max j 0.1 (by norm_num) (by norm_num))
          (poisson_pmf_pos j 0.1 (by norm_num)).le
          (poisson_pmf_pos 0 0.1 (by norm_num)).le)
  rw [h]
  rfl

/-- Helper: sum of a mapped range as a `Finset` sum. -/
lemma sum_map_range (f : ℕ → ℝ) :
    ∀ n : ℕ, ((List.range n).map f).sum = ∑ j ∈ Finset.range n, f j := by
  intro n
  induction n with
  | zero => simp
  | succ n ih =>
    rw [List.range_succ, List.map_append, List.sum_append, Finset.sum_range_succ, ih]
    simp

/-- Helper: the index-weighted row sum of the `goals` field splits across
an append of row blocks. -/
lemma rowIdxSumFrom_append :
    ∀ (A B : List (List ℝ)) (k : ℕ),
      rowIdxSumFrom k (A ++ B) = rowIdxSumFrom k A + rowIdxSumFrom (k + A.length) B := by
  intro A
  induction A with
  | nil => intro B k; simp [rowIdxSumFrom]
  | cons row rest ih =>
    intro B k
    simp only [List.cons_append, rowIdxSumFrom, List.length_cons, List.append_eq]
    rw [ih]
    have hn : k + 1 + rest.length = k + (rest.length + 1) := by omega
    rw [hn]
    ring

/-- Helper: the index-weighted row sum over a mapped range as a `Finset`
sum. -/
lemma rowIdxSumFrom_map_range (gf : ℕ → List ℝ) :
    ∀ n : ℕ, rowIdxSumFrom 0 ((List.range n).map gf)
      = ∑ i ∈ Finset.range n, (i : ℝ) * (gf i).sum := by
  intro n
  induction n with
  | zero => simp [rowIdxSumFrom]
  | succ n ih =>
    rw [List.range_succ, List.map_append, rowIdxSumFrom_append, Finset.sum_range_succ, ih]
    simp [rowIdxSumFrom]

/-- Helper: the pre-rounding value of the `goals` field of a score matrix
factorizes as (expected truncated home goals) × (away mass). -/
lemma rowIdxSumFrom_score_matrix (lh la : ℝ) (g : ℕ) :
    rowIdxSumFrom 0 (score_matrix lh la g)
      = (∑ i ∈ Finset.range (g + 1), (i : ℝ) * poisson_pmf i lh)
        * (∑ j ∈ Finset.range (g + 1), poisson_pmf j la) := by
  unfold score_matrix
  rw [rowIdxSumFrom_map_range]
  have hrow : ∀ i : ℕ,
      ((List.range (g + 1)).map fun j => poisson_pmf i lh * poisson_pmf j la).sum
        = poisson_pmf i lh * ∑ j ∈ Finset.range (g + 1), poisson_pmf j la := by
    intro i
    rw [sum_map_range, Finset.mul_sum]
  have h2 : ∑ i ∈ Finset.range (g + 1),
      (i : ℝ) * ((List.range (g + 1)).map fun j => poisson_pmf i lh * poisson_pmf j la).sum
      = ∑ i ∈ Finset.range (g + 1),
        (i : ℝ) * poisson_pmf i lh * ∑ j ∈ Finset.range (g + 1), poisson_pmf j la := by
    apply Finset.sum_congr rfl
    intro i _
    rw [hrow i]
    ring
  rw [h2, ← Finset.sum_mul]

/-- Helper: closed form of the `goals` field over any score matrix. -/
lemma goalsField_score_matrix (lh la : ℝ) (g : ℕ) :
    goalsField (score_matrix lh la g)
      = roundTo 2 ((∑ i ∈ Finset.range (g + 1), (i : ℝ) * poisson_pmf i lh)
        * (∑ j ∈ Finset.range (g + 1), poisson_pmf j la)) := by
  unfold goalsField
  rw [rowIdxSumFrom_score_matrix]

/-- Helper: a column sum of the score matrix. -/
lemma colSum_score_matrix (lh la : ℝ) (g j : ℕ) (hj : j < g + 1) :
    colSum (score_matrix lh la g) j
      = (∑ i ∈ Finset.range (g + 1), poisson_pmf i lh) * poisson_pmf j la := by
  unfold colSum score_matrix
  rw [List.map_map, sum_map_range]
  have h1 : ∀ i : ℕ,
      ((fun row => (row[j]?).getD 0) ∘ fun i =>
          (List.range (g + 1)).map fun j2 => poisson_pmf i lh * poisson_pmf j2 la) i
        = poisson_pmf i lh * poisson_pmf j la := by
    intro i
    simp only [Function.comp]
    rw [List.getElem?_map, List.getElem?_range hj]
    rfl
  rw [Finset.sum_congr rfl fun i _ => h1 i, ← Finset.sum_mul]

/-- Helper: evaluate `roundTo` from two-sided bounds on the scaled
argument. -/
lemma roundTo_eq_of_bounds (n : ℕ) (x : ℝ) (z : ℤ)
    (h1 : (z : ℝ) ≤ x * 10 ^ n + 1 / 2) (h2 : x * 10 ^ n + 1 / 2 < z + 1) :
    roundTo n x = (z : ℝ) / 10 ^ n := by
  unfold roundTo
  have hz : round (x * 10 ^ n) = z := by
    rw [round_eq]
    exact Int.floor_eq_iff.mpr ⟨h1, h2⟩
  rw [hz]

/-- Helper: lower bound on `exp (-1)`. -/
lemma exp_neg_one_gt : (0.36787 : ℝ) < Real.exp (-1) := by
  have hex2 : Real.exp 1 < 2.7182818286 := Real.exp_one_lt_d9
  have hpos : (0 : ℝ) < Real.exp 1 := Real.exp_pos 1
  have hu : Real.exp (-1) = (Real.exp 1)⁻¹ := Real.exp_neg 1
  have hinv : Real.exp 1 * (Real.exp 1)⁻¹ = 1 := mul_inv_cancel₀ (ne_of_gt hpos)
  rw [hu]
  nlinarith [inv_pos.mpr hpos]

/-- Helper: upper bound on `exp (-1)`. -/
lemma exp_neg_one_lt : Real.exp (-1) < 0.36788 := by
  have hex1 : (2.7182818283 : ℝ) < Real.exp 1 := Real.exp_one_gt_d9
  have hpos : (0 : ℝ) < Real.exp 1 := Real.exp_pos 1
  have hu : Real.exp (-1) = (Real.exp 1)⁻¹ := Real.exp_neg 1
  have hinv : Real.exp 1 * (Real.exp 1)⁻¹ = 1 := mul_inv_cancel₀ (ne_of_gt hpos)
  rw [hu]
  nlinarith [inv_pos.mpr hpos]

/-- Helper: the index-weighted Poisson sum at rate 1 over 0..8. -/
lemma sum_idx_poisson_one :
    (∑ i ∈ Finset.range 9, (i : ℝ) * poisson_pmf i 1) = Real.exp (-1) * (685 / 252) := by
  simp [Finset.sum_range_succ, poisson_pmf, Nat.factorial]
  ring

/-- Helper: the Poisson mass at rate 1 over 0..8. -/
lemma sum_poisson_one :
    (∑ j ∈ Finset.range 9, poisson_pmf j 1) = Real.exp (-1) * (109601 / 40320) := by
  simp [Finset.sum_range_succ, poisson_pmf, Nat.factorial]
  ring

/-- Helper: the spec's combined expected goals over the λ=1 score matrix
is exactly twice the code's home-side term. -/
lemma specCombined_one :
    specCombinedGoals (score_matrix 1 1 8) 9
      = 2 * ((∑ i ∈ Finset.range 9, (i : ℝ) * poisson_pmf i 1)
        * (∑ j ∈ Finset.range 9, poisson_pmf j 1)) := by
  unfold specCombinedGoals
  rw [rowIdxSumFrom_score_matrix]
  simp only [show (8 : ℕ) + 1 = 9 from rfl]
  have hcol : ∀ j ∈ Finset.range 9, (j : ℝ) * colSum (score_matrix 1 1 8) j
      = (j : ℝ) * ((∑ i ∈ Finset.range 9, poisson_pmf i 1) * poisson_pmf j 1) := by
    intro j hj
    rw [colSum_score_matrix 1 1 8 j (by have := Finset.mem_range.mp hj; omega)]
  rw [Finset.sum_congr rfl hcol]
  have h3 : ∑ j ∈ Finset.range 9,
      (j : ℝ) * ((∑ i ∈ Finset.range 9, poisson_pmf i 1) * poisson_pmf j 1)
      = (∑ i ∈ Finset.range 9, poisson_pmf i 1)
        * ∑ j ∈ Finset.range 9, (j : ℝ) * poisson_pmf j 1 := by
    rw [Finset.mul_sum]
    apply Finset.sum_congr rfl
    intro j _
    ring
  rw [h3]
  ring

/-- C1 counterexample: at λ_home = λ_away = 1 the code's `goals` field
rounds to 1.00 while the spec's combined home+away expectation rounds to
2.00, so the two disagree. -/
theorem C1_counterexample_goals :
    goalsField (score_matrix 1 1 8) ≠ roundTo 2 (specCombinedGoals (score_matrix 1 1 8) 9) := by
  have hu1 := exp_neg_one_gt
  have hu2 := exp_neg_one_lt
  have hE1 : (0.995 : ℝ)
      ≤ Real.exp (-1) * (685 / 252) * (Real.exp (-1) * (109601 / 40320)) := by
    nlinarith [sq_nonneg (Real.exp (-1) - 0.36787), sq_nonneg (Real.exp (-1) - 0.36788)]
  have hE2 : Real.exp (-1) * (685 / 252) * (Real.exp (-1) * (109601 / 40320))
      < (1.0025 : ℝ) := by
    nlinarith [sq_nonneg (Real.exp (-1) - 0.36787), sq_nonneg (Real.exp (-1) - 0.36788)]
  have hgoal : goalsField (score_matrix 1 1 8) = 1 := by
    rw [goalsField_score_matrix]
    simp only [show (8 : ℕ) + 1 = 9 from rfl]
    rw [sum_idx_poisson_one, sum_poisson_one]
    rw [roundTo_eq_of_bounds 2 _ 100 (by push_cast; nlinarith) (by push_cast; nlinarith)]
    norm_num
  have hcombval : roundTo 2 (specCombinedGoals (score_matrix 1 1 8) 9) = 2 := by
    rw [specCombined_one, sum_idx_poisson_one, sum_poisson_one]
    rw [roundTo_eq_of_bounds 2 _ 200 (by push_cast; nlinarith) (by push_cast; nlinarith)]
    norm_num
  rw [hgoal, hcombval]
  norm_num

/-- C1 (amended): the `goals` field of the market prediction is the
2-decimal rounding of the home-side term only — Σ over i of
(i × row-sum(i)), equal to (Σ i·P(i;λ_home)) × (Σ P(j;λ_away)) — with no
away-side column term added. -/
theorem C1_goals_home_term_only (homeId awayId : ℕ) (matchList : List Match) :
    (predict_markets homeId awayId matchList).goals
      = roundTo 2 ((∑ i ∈ Finset.range 9,
          (i : ℝ) * poisson_pmf i ((estimate_goal_intensities homeId awayId matchList).1 : ℝ))
        * (∑ j ∈ Finset.range 9,
          poisson_pmf j ((estimate_goal_intensities homeId awayId matchList).2 : ℝ))) := by
  show goalsField (score_matrix ((estimate_goal_intensities homeId awayId matchList).1 : ℝ)
      ((estimate_goal_intensities homeId awayId matchList).2 : ℝ) 8) = _
  rw [goalsField_score_matrix]

end MenuApp
